import Mathlib

/-!
Shallow embedding of the NEWS1 front-page news pipeline
(`main.py`, `frontpage_analysis.py`, `build_urls_from_naver.py`)
and proofs about its chunking, link extraction, fetching, grouping,
rendering and delivery behaviour.

Text is modelled as `List Char` where character-level iteration matters
(the Telegram chunker) and as `String` elsewhere.  External collaborators
(HTTP, the LLM calls, the Telegram transport) are modelled as explicit
oracle parameters at their interface boundary; everything that the Python
code computes itself is translated directly from the source.
-/

namespace News1

/-! ### Basic text helpers (Python string primitives used by the code) -/

/-- Whitespace characters stripped by Python `str.strip()` (ASCII subset). -/
def isSpaceChar (c : Char) : Bool :=
  c = ' ' || c = '\t' || c = '\n' || c = '\r' || c = Char.ofNat 0x0b || c = Char.ofNat 0x0c

/-- Python `str.strip()` on a character list. -/
def trimChars (cs : List Char) : List Char :=
  ((cs.dropWhile isSpaceChar).reverse.dropWhile isSpaceChar).reverse

/-- Does `pat` occur as a contiguous sublist of `s`? -/
def infixAt (pat : List Char) : List Char → Bool
  | [] => pat.isEmpty
  | c :: cs => pat.isPrefixOf (c :: cs) || infixAt pat cs

/-- Python `pat in s` substring containment. -/
def strContains (s pat : String) : Bool :=
  infixAt pat.toList s.toList

/-- Python slicing `s[:n]`. -/
def strTake (s : String) (n : Nat) : String :=
  String.mk (s.toList.take n)

/-! ### `split_message` (main.py, inside `send_telegram`)

`msg.splitlines(keepends=True)` splits at the Python universal line
boundaries, keeping the line terminator on each line; `\r\n` counts as a
single boundary. -/

/-- The line-boundary characters recognised by Python `str.splitlines`. -/
def pyLineBreaks : List Char :=
  ['\n', '\r', Char.ofNat 0x0b, Char.ofNat 0x0c, Char.ofNat 0x1c,
   Char.ofNat 0x1d, Char.ofNat 0x1e, Char.ofNat 0x85, Char.ofNat 0x2028,
   Char.ofNat 0x2029]

/-- Is `c` a Python line boundary? -/
def isLB (c : Char) : Bool := pyLineBreaks.contains c

/-- `str.splitlines(keepends=True)`: `acc` holds the current (reversed)
partial line. -/
def splitlinesKE : List Char → List Char → List (List Char)
  | [], acc => if acc.isEmpty then [] else [acc.reverse]
  | '\r' :: '\n' :: cs, acc => (acc.reverse ++ ['\r', '\n']) :: splitlinesKE cs []
  | c :: cs, acc =>
    if isLB c then (acc.reverse ++ [c]) :: splitlinesKE cs []
    else splitlinesKE cs (c :: acc)

/-- The hard-split loop `for i in range(0, len(line), chunk_size)` of
`split_message`.  Python raises `ValueError` when `chunk_size = 0`; that
case never occurs in the program (the only call passes 4000) and is mapped
to `[]` here, with `0 < chunkSize` assumed by every theorem. -/
def hardSplitFuel (cs : Nat) : Nat → List Char → List (List Char)
  | _, [] => []
  | 0, line => [line]
  | fuel + 1, line => line.take cs :: hardSplitFuel cs fuel (line.drop cs)

/-- The hard-split loop, with enough fuel for a positive `cs`. -/
def hardSplitGo (cs : Nat) (line : List Char) : List (List Char) :=
  if cs = 0 then [] else hardSplitFuel cs line.length line

/-- The accumulation loop of `split_message`: `current` is the list of
accumulated lines, `currentLen` the running `current_len`. -/
def split_message_go (chunkSize : Nat) :
    List (List Char) → List (List Char) → Nat → List (List Char)
  | [], current, _ => if current.isEmpty then [] else [current.flatten]
  | line :: rest, current, currentLen =>
    if chunkSize ≤ line.length then
      (if current.isEmpty then [] else [current.flatten])
        ++ hardSplitGo chunkSize line
        ++ split_message_go chunkSize rest [] 0
    else if chunkSize < currentLen + line.length then
      current.flatten :: split_message_go chunkSize rest [line] line.length
    else
      split_message_go chunkSize rest (current ++ [line]) (currentLen + line.length)

/-- `split_message(msg, chunk_size)` from `main.py`. -/
def split_message (msg : List Char) (chunkSize : Nat) : List (List Char) :=
  split_message_go chunkSize (splitlinesKE msg []) [] 0

/-- The chunk list computed by `send_telegram` (chunk size 4000). -/
def send_telegram_chunks (message : List Char) : List (List Char) :=
  split_message message 4000

/-- The delivery attempts made by `send_telegram` in `main.py`: the loop
posts every chunk in order and continues after a failed post (it only
prints the error), so every chunk index is attempted.  `t i` is the
transport's success answer for chunk `i`. -/
def send_telegram_attempts_main {α : Type} (t : Nat → Bool) (chunks : List α) :
    List (Nat × Bool) :=
  (List.range chunks.length).map (fun i => (i, t i))

/-- The delivery attempts made by `send_telegram_message` in
`frontpage_analysis.py`, starting at chunk index `i`: on a failed post the
loop logs and `break`s, so nothing after the first failure is attempted. -/
def send_attempts_fp {α : Type} (t : Nat → Bool) : List α → Nat → List (Nat × Bool)
  | [], _ => []
  | _ :: rest, i =>
    if t i then (i, true) :: send_attempts_fp t rest (i + 1)
    else [(i, false)]

/-! ### DOM model

`BeautifulSoup(html, "html.parser")` output is modelled as a tree; the
synthetic document object is an `elem` with a reserved tag, so an
anchor's ancestor chain ends at the document node exactly as in
BeautifulSoup (after which `parent` is `None`). -/

/-- A parsed markup node. -/
inductive Dom where
  | elem (tag : String) (attrs : List (String × String)) (children : List Dom)
  | txt (s : String)

/-- First value of attribute `name` (parsed markup has unique attributes). -/
def attrGet : List (String × String) → String → Option String
  | [], _ => none
  | (k, v) :: rest, name => if k = name then some v else attrGet rest name

/-- `a["href"]` for an anchor element (defaults to `""` off anchors). -/
def getHref (d : Dom) : String :=
  match d with
  | .elem _ attrs _ => (attrGet attrs "href").getD ""
  | .txt _ => ""

mutual

/-- The text pieces of a node in document order. -/
def domTexts : Dom → List String
  | .txt s => [s]
  | .elem _ _ children => domTextsList children

/-- The text pieces of a forest in document order. -/
def domTextsList : List Dom → List String
  | [] => []
  | c :: cs => domTexts c ++ domTextsList cs

end

/-- `node.get_text(sep, strip=True)`: strip each piece, drop empties,
join with `sep`. -/
def getTextSep (sep : String) (d : Dom) : String :=
  String.mk (List.intercalate sep.toList
    (((domTexts d).map (fun s => trimChars s.toList)).filter (fun l => !l.isEmpty)))

mutual

/-- `soup.find_all("a", href=True)` in document (pre)order, each anchor
paired with its ancestor chain, nearest ancestor first. -/
def anchorsGo : Dom → List Dom → List (Dom × List Dom)
  | .txt _, _ => []
  | .elem tag attrs children, anc =>
    (if tag = "a" && (attrGet attrs "href").isSome then
        [(Dom.elem tag attrs children, anc)]
      else [])
      ++ anchorsGoList children (Dom.elem tag attrs children :: anc)

/-- `anchorsGo` over a forest. -/
def anchorsGoList : List Dom → List Dom → List (Dom × List Dom)
  | [], _ => []
  | c :: cs, anc => anchorsGo c anc ++ anchorsGoList cs anc

end

/-- All anchors of the document with their ancestor chains. -/
def anchorsWithAncestors (root : Dom) : List (Dom × List Dom) :=
  anchorsGo root []

/-- All anchors of the document in document order. -/
def anchorList (root : Dom) : List Dom :=
  (anchorsWithAncestors root).map Prod.fst

/-! ### `extract_a1_links` (main.py and build_urls_from_naver.py)

`urljoin` from `urllib.parse` is taken as an oracle parameter `join`;
the code only ever compares its results for equality. -/

/-- Front-page keyword variants scanned by `main.py`. -/
def mainKeys : List String := ["A1면", "A01면", "1면", "1 面"]

/-- Front-page keyword variants scanned by `build_urls_from_naver.py`. -/
def buildKeys : List String := ["A1면", "A01면", "A 1면", "A 01면", "1면", "1 面"]

/-- The two `href` substring filters: the per-source path marker and the
date marker. -/
def anchorMatches (pc dt href : String) : Bool :=
  strContains href ("/article/newspaper/" ++ pc ++ "/")
    && strContains href ("date=" ++ dt)

/-- The ancestor walk: up to 6 ancestors, stopping early at `None` or at
the first ancestor whose rendered text contains a keyword. -/
def walkA1 (keys : List String) : Nat → List Dom → Bool
  | 0, _ => false
  | _ + 1, [] => false
  | n + 1, p :: rest =>
    if keys.any (fun k => strContains (getTextSep " " p) k) then true
    else walkA1 keys n rest

/-- The keyword-path candidate list: matching anchors whose ancestor walk
found a front-page keyword, resolved against the page URL, in document
order. -/
def keywordCandidates (keys : List String) (join : String → String → String)
    (root : Dom) (pageUrl pc dt : String) : List String :=
  (anchorsWithAncestors root).filterMap (fun p =>
    let href := getHref p.1
    if anchorMatches pc dt href then
      if walkA1 keys 6 p.2 then some (join pageUrl href) else none
    else none)

/-- The fallback loop shared by both files: first distinct matching
resolved URLs in document order, stopping as soon as 4 are collected
(the `len(candidates) >= 4` break is checked after every anchor; the
three branches below unfold the matched/duplicate/new cases of the
loop body). -/
def fallbackGo (join : String → String → String) (pageUrl pc dt : String) :
    List Dom → List String → List String → List String
  | [], cands, _ => cands
  | a :: rest, cands, seen =>
    if anchorMatches pc dt (getHref a) then
      if seen.contains (join pageUrl (getHref a)) then
        if 4 ≤ cands.length then cands
        else fallbackGo join pageUrl pc dt rest cands seen
      else
        if 4 ≤ (cands ++ [join pageUrl (getHref a)]).length then
          cands ++ [join pageUrl (getHref a)]
        else
          fallbackGo join pageUrl pc dt rest (cands ++ [join pageUrl (getHref a)])
            (join pageUrl (getHref a) :: seen)
    else
      if 4 ≤ cands.length then cands
      else fallbackGo join pageUrl pc dt rest cands seen

/-- The fallback candidate list over a whole document. -/
def fallbackCandidates (join : String → String → String) (root : Dom)
    (pageUrl pc dt : String) : List String :=
  fallbackGo join pageUrl pc dt (anchorList root) [] []

/-- All matching resolved URLs in document order (duplicates kept):
the reference order for the fallback path. -/
def allMatching (join : String → String → String) (root : Dom)
    (pageUrl pc dt : String) : List String :=
  (anchorList root).filterMap (fun a =>
    if anchorMatches pc dt (getHref a) then some (join pageUrl (getHref a))
    else none)

/-- `candidates` as computed by `extract_a1_links` in `main.py` just
before the final `list(set(candidates))`. -/
def a1_candidates_main (join : String → String → String) (root : Dom)
    (pageUrl pc dt : String) : List String :=
  let kw := keywordCandidates mainKeys join root pageUrl pc dt
  if kw.isEmpty then fallbackCandidates join root pageUrl pc dt else kw

/-- `candidates` as computed by `extract_a1_links` in
`build_urls_from_naver.py` just before the final dedup loop. -/
def a1_candidates_bu (join : String → String → String) (root : Dom)
    (pageUrl pc dt : String) : List String :=
  let kw := keywordCandidates buildKeys join root pageUrl pc dt
  if kw.isEmpty then fallbackCandidates join root pageUrl pc dt else kw

/-- The final order-preserving dedup loop of `build_urls_from_naver.py`
(`unique_links` / `seen_urls`). -/
def orderedDedupGo : List String → List String → List String
  | [], _ => []
  | u :: rest, seen =>
    if seen.contains u then orderedDedupGo rest seen
    else u :: orderedDedupGo rest (u :: seen)

/-- `orderedDedupGo` with an empty `seen` set. -/
def orderedDedup (xs : List String) : List String := orderedDedupGo xs []

/-- `extract_a1_links` from `build_urls_from_naver.py`. -/
def extract_a1_links_bu (join : String → String → String) (root : Dom)
    (pageUrl pc dt : String) : List String :=
  orderedDedup (a1_candidates_bu join root pageUrl pc dt)

/-- The possible values of Python `list(set(xs))`: the distinct elements
of `xs` in an order chosen by the runtime (string hashing is seeded per
process, so no particular order is guaranteed). -/
def PySetList (xs res : List String) : Prop :=
  res.Nodup ∧ (∀ u ∈ res, u ∈ xs) ∧ (∀ u ∈ xs, u ∈ res)

instance instDecPySetList (xs res : List String) : Decidable (PySetList xs res) := by
  unfold PySetList
  infer_instance

/-- `res` is a possible return value of `extract_a1_links` in `main.py`,
which ends with `return list(set(candidates))`. -/
def extract_a1_links_main_spec (join : String → String → String) (root : Dom)
    (pageUrl pc dt : String) (res : List String) : Prop :=
  PySetList (a1_candidates_main join root pageUrl pc dt) res

instance instDecMainSpec (join : String → String → String) (root : Dom)
    (pageUrl pc dt : String) (res : List String) :
    Decidable (extract_a1_links_main_spec join root pageUrl pc dt res) := by
  unfold extract_a1_links_main_spec
  infer_instance

/-! ### Concurrent content fetcher (main.py, Part 2)

The HTTP layer is an oracle `net : String → FetchOutcome`: `error` models
any exception raised by `requests.get`/parsing (network, timeout), `page`
models a response whose parsed body is the given document.
`executor.map` of `ThreadPoolExecutor` collects results in input order,
so the batch is the pointwise map of the per-item worker. -/

/-- Everything before `#` resp. `.` in a CSS selector token. -/
def splitAtChar (c : Char) : List Char → Option (List Char × List Char)
  | [] => none
  | x :: xs =>
    if x = c then some ([], xs)
    else (splitAtChar c xs).map (fun p => (x :: p.1, p.2))

/-- Whitespace-splitting of a `class` attribute value. -/
def splitWordsGo : List Char → List Char → List (List Char)
  | [], acc => if acc.isEmpty then [] else [acc.reverse]
  | ch :: rest, acc =>
    if isSpaceChar ch then
      (if acc.isEmpty then [] else [acc.reverse]) ++ splitWordsGo rest []
    else splitWordsGo rest (ch :: acc)

/-- Does element `d` match a selector of shape `tag`, `tag#id` or
`tag.class`? (the only shapes in the code). -/
def selMatches (sel : String) (d : Dom) : Bool :=
  match d with
  | .txt _ => false
  | .elem tag attrs _ =>
    match splitAtChar '#' sel.toList with
    | some (t, i) => tag.toList == t && attrGet attrs "id" == some (String.mk i)
    | none =>
      match splitAtChar '.' sel.toList with
      | some (t, c) =>
        tag.toList == t
          && (match attrGet attrs "class" with
              | some cls => (splitWordsGo cls.toList []).contains c
              | none => false)
      | none => tag.toList == sel.toList

mutual

/-- `soup.select_one(sel)`: first matching element in document order. -/
def selectOne (sel : String) : Dom → Option Dom
  | .txt _ => none
  | .elem tag attrs children =>
    if selMatches sel (.elem tag attrs children) then some (.elem tag attrs children)
    else selectOneList sel children

/-- `selectOne` over a forest. -/
def selectOneList (sel : String) : List Dom → Option Dom
  | [] => none
  | c :: cs =>
    match selectOne sel c with
    | some d => some d
    | none => selectOneList sel cs

end

/-- The body-container selector priority list of
`fetch_single_article_content`. -/
def selectorsMain : List String :=
  ["div#dic_area", "div#newsEndContents", "div.newsct_article", "div#articleBodyContents"]

/-- The selector loop of `fetch_single_article_content`: text of the
first selector that finds a node, else the initial `""`. -/
def extractContentMain (doc : Dom) : String :=
  (selectorsMain.findSome? (fun sel => (selectOne sel doc).map (getTextSep "\n"))).getD ""

/-- A `source`/`url` item; `content` is `none` for the input items of the
fetch stage (plain two-key dicts) and `some` once the worker has filled
the `content` key. -/
structure NewsItem where
  source : String
  url : String
  content : Option String
deriving DecidableEq, Repr

/-- Outcome of `requests.get` + `BeautifulSoup` for one URL. -/
inductive FetchOutcome where
  | error
  | page (doc : Dom)

/-- `fetch_single_article_content(item)`: on success a three-key dict
with the truncated or sentinel content, on any exception the original
item returned unchanged. -/
def fetch_single_article_content (net : String → FetchOutcome) (item : NewsItem) :
    NewsItem :=
  match net item.url with
  | .error => item
  | .page doc =>
    let content := extractContentMain doc
    { source := item.source, url := item.url,
      content := some (if content.isEmpty then "본문 없음" else strTake content 4000) }

/-- `fetch_contents_parallel(items)`: `executor.map` over the batch,
results in input order. -/
def fetch_contents_parallel (net : String → FetchOutcome) (items : List NewsItem) :
    List NewsItem :=
  items.map (fetch_single_article_content net)

/-! ### Gemini analysis and report rendering (main.py, Parts 3-5) -/

/-- One entry of a topic's `press_critiques` array. -/
structure PressCritique where
  source : String
  position : String
  tone : String
deriving DecidableEq, Repr

/-- One topic object of the Gemini JSON answer. -/
structure Topic where
  title : String
  ids : List Int
  summary_bullets : List String
  full_article : String
  press_critiques : List PressCritique
deriving DecidableEq, Repr

/-- The parsed Gemini answer (`{"topics": [...]}`). -/
structure GeminiResult where
  topics : List Topic
deriving DecidableEq, Repr

/-- `analyze_with_gemini`: `parsed` is the result of `json.loads` on the
model response when it is valid structured data; `none` models a
`JSONDecodeError` or any other exception, for which the code returns a
dict with an empty topic list. -/
def analyze_with_gemini (parsed : Option GeminiResult) : GeminiResult :=
  match parsed with
  | some r => r
  | none => { topics := [] }

/-- `len(t.get("ids", []))`, the sort key of the topic sort in `main`. -/
def topicSize (t : Topic) : Nat := t.ids.length

/-- The relation realising `topics.sort(key=..., reverse=True)`. -/
def topicGE (a b : Topic) : Prop := topicSize b ≤ topicSize a

instance instDecTopicGE : DecidableRel topicGE := fun _ _ => Nat.decLe _ _

instance instTotalTopicGE : IsTotal Topic topicGE :=
  ⟨fun a b => Nat.le_total (topicSize b) (topicSize a)⟩

instance instTransTopicGE : IsTrans Topic topicGE :=
  ⟨fun _ _ _ h1 h2 => Nat.le_trans h2 h1⟩

/-- `topics.sort(key=lambda t: len(t.get("ids", [])), reverse=True)`:
Python `list.sort` is stable, and `reverse=True` keeps the original
order of elements with equal keys, which is exactly a stable insertion
sort under `topicGE`. -/
def sort_topics_main (ts : List Topic) : List Topic :=
  List.insertionSort topicGE ts

/-- Python `xs[i]` with negative-index wraparound; `none` models the
`IndexError` raise. -/
def pyIndex {α : Type} (xs : List α) (i : Int) : Option α :=
  if 0 ≤ i then xs[i.toNat]?
  else if -(xs.length : Int) ≤ i then xs[xs.length - (-i).toNat]?
  else none

/-- The `link_tags` loop of `main` (lines 399-406): for each id, if
`idx < len(contents)` access `contents[idx]` and render its url and
source; `none` models the loop raising `IndexError`. -/
def build_link_tags_go (contents : List NewsItem) :
    List Int → List (String × String) → Option (List (String × String))
  | [], acc => some acc
  | idx :: rest, acc =>
    if idx < (contents.length : Int) then
      match pyIndex contents idx with
      | some it => build_link_tags_go contents rest (acc ++ [(it.url, it.source)])
      | none => none
    else build_link_tags_go contents rest acc

/-- `build_link_tags_go` started with an empty accumulator. -/
def build_link_tags (contents : List NewsItem) (ids : List Int) :
    Option (List (String × String)) :=
  build_link_tags_go contents ids []

/-- How a run of one of the scripts ends: a plain early `return` after a
`print` (process exit status 0), a `raise SystemExit(msg)` (non-zero
status), or normal continuation. -/
inductive RunExit where
  | earlyReturn (msg : String)
  | sysExit (msg : String)
  | completed
deriving DecidableEq, Repr

/-- Does the exit carry a non-zero-equivalent outcome? -/
def RunExit.isFatal : RunExit → Bool
  | .sysExit _ => true
  | _ => false

/-- The zero-links guard of `main()` in `main.py`: `if not links:
print(...); return`. -/
def main_zero_links_exit (links : List NewsItem) : RunExit :=
  if links.isEmpty then .earlyReturn "수집된 기사가 없습니다." else .completed

/-! ### frontpage_analysis.py: pipeline, grouping and report -/

/-- One entry of `load_items_from_file` (1-based `index`). -/
structure LoadedItem where
  index : Nat
  source : String
  url : String
deriving DecidableEq, Repr

/-- One entry of `summary_items` after crawl + summarization. -/
structure SummaryItem where
  index : Nat
  source : String
  url : String
  summary : String
deriving DecidableEq, Repr

/-- `classify_topics`: `parsed` is the collaborator response when it
parses as a JSON object of list-valued entries; `none` models any
exception (invalid JSON, wrong top-level shape, network error), for
which the code returns the empty dict. -/
def classify_topics (parsed : Option (List (String × List Int))) :
    List (String × List Int) :=
  match parsed with
  | some m => m
  | none => []

/-- Lexicographic strict order on code points, as Python string `<`. -/
def strLtB : List Char → List Char → Bool
  | [], [] => false
  | [], _ :: _ => true
  | _ :: _, [] => false
  | a :: as, b :: bs => if a < b then true else if b < a then false else strLtB as bs

/-- The total order used to model Python `sorted` on strings. -/
def strLeRel (a b : String) : Prop := strLtB b.toList a.toList = false

instance instDecStrLeRel : DecidableRel strLeRel := fun _ _ => instDecidableEqBool _ _

/-- `sorted(topic_map.keys())`: dict keys in insertion order, sorted
lexicographically (Python `sorted` is stable). -/
def sortedKeys (tm : List (String × List Int)) : List String :=
  List.insertionSort strLeRel (tm.map Prod.fst)

/-- `topic_map[label]` (dict lookup; duplicate keys cannot occur in a
dict, later entries would win). -/
def tmGet (tm : List (String × List Int)) (label : String) : List Int :=
  ((tm.reverse.find? (fun p => p.1 == label)).map Prod.snd).getD []

/-- `idx_map.get(idx)` where `idx_map = {item["index"]: item}`. -/
def idxLookup (items : List SummaryItem) (i : Int) : Option SummaryItem :=
  items.reverse.find? (fun it => (it.index : Int) == i)

/-- `by_source.setdefault(source, []).append(url)`: insertion-ordered
grouping. -/
def addBySource (acc : List (String × List String)) (s u : String) :
    List (String × List String) :=
  if acc.any (fun p => p.1 == s) then
    acc.map (fun p => if p.1 == s then (p.1, p.2 ++ [u]) else p)
  else acc ++ [(s, [u])]

/-- The grouping loop over a topic's member (source, url) pairs. -/
def groupBySource : List (String × String) → List (String × List String) →
    List (String × List String)
  | [], acc => acc
  | (s, u) :: rest, acc => groupBySource rest (addBySource acc s u)

/-- One line of the flat fallback list: `f"{idx}. [{source}] {url}"`. -/
def flat_link_line (it : SummaryItem) : String :=
  toString it.index ++ ". [" ++ it.source ++ "] " ++ it.url

/-- The lines rendered for one topic label: the label, one line per
source with its joined URLs, then a blank separator line. -/
def topic_section_lines (items : List SummaryItem) (tm : List (String × List Int))
    (label : String) : List String :=
  let pairs := (tmGet tm label).filterMap
    (fun i => (idxLookup items i).map (fun it => (it.source, it.url)))
  let bySrc := groupBySource pairs []
  (label :: bySrc.map (fun p => "- " ++ p.1 ++ ": " ++ String.intercalate ", " p.2))
    ++ [""]

/-- `link_lines` of `run_pipeline`: the topic-grouped section when the
classification succeeded, the flat per-item enumeration when
`topic_map` is empty. -/
def link_lines (tm : List (String × List Int)) (items : List SummaryItem) :
    List String :=
  if tm.isEmpty then
    "[기사 링크 모음]" :: items.map flat_link_line
  else
    "[주제별 기사 링크]" :: (sortedKeys tm).flatMap (topic_section_lines items tm)

/-- `final_report` of `run_pipeline`: mode header, links section,
separator, analysis body. -/
def final_report (mode_label : String) (tm : List (String × List Int))
    (items : List SummaryItem) (analysis : String) : String :=
  ("[모드] " ++ mode_label ++ "\n") ++ "\n"
    ++ String.intercalate "\n" (link_lines tm items)
    ++ "\n\n----------\n" ++ analysis

/-- The per-item crawl + summarize loop of `run_pipeline`: an item whose
fetch or summarization raises is logged and skipped (`continue`), all
others become `summary_items` entries in order.  `fetchO` models
`fetch_article_text`, `sumO` models `summarize_article`. -/
def build_summary_items (fetchO : LoadedItem → Option String)
    (sumO : LoadedItem → String → Option String) (items : List LoadedItem) :
    List SummaryItem :=
  items.filterMap (fun it =>
    match fetchO it with
    | none => none
    | some text =>
      match sumO it text with
      | none => none
      | some s => some { index := it.index, source := it.source, url := it.url, summary := s })

/-- The two fatal guards of `run_pipeline` (`raise SystemExit`) around
the crawl + summarize stage. -/
def run_pipeline_exit (fetchO : LoadedItem → Option String)
    (sumO : LoadedItem → String → Option String) (items : List LoadedItem) : RunExit :=
  if items.isEmpty then .sysExit "URL이 한 개도 없습니다. urls.txt를 확인하세요."
  else if (build_summary_items fetchO sumO items).isEmpty then
    .sysExit "요약이 한 개도 생성되지 않았습니다."
  else .completed

/-! ### Concrete fixtures used by witnesses and counterexamples -/

/-- A matching article href for press code 020 and date 20250101. -/
def hrefNum (n : Nat) : String :=
  "/article/newspaper/020/" ++ toString n ++ "?date=20250101"

/-- A concrete `urljoin` instance (the hrefs are used as absolute). -/
def idJoin : String → String → String := fun _ href => href

/-- A listing page with two matching anchors and no front-page keyword. -/
def docTwo : Dom :=
  Dom.elem "[document]" []
    [Dom.elem "a" [("href", hrefNum 0)] [], Dom.elem "a" [("href", hrefNum 1)] []]

/-- A listing page with five matching anchors and no front-page keyword. -/
def docFive : Dom :=
  Dom.elem "[document]" []
    ((List.range 5).map (fun n => Dom.elem "a" [("href", hrefNum n)] []))

/-- Scenario topic with two member ids. -/
def scenTopicA : Topic :=
  { title := "A. Topic", ids := [0, 2], summary_bullets := [], full_article := "",
    press_critiques := [] }

/-- Scenario topic with one member id. -/
def scenTopicB : Topic :=
  { title := "B. Topic", ids := [1], summary_bullets := [], full_article := "",
    press_critiques := [] }

/-- Three summarized items with indices 0, 1, 2. -/
def fixtureItems3 : List SummaryItem :=
  [{ index := 0, source := "s0", url := "u0", summary := "x" },
   { index := 1, source := "s1", url := "u1", summary := "x" },
   { index := 2, source := "s2", url := "u2", summary := "x" }]

/-! ## Theorems

First the helper lemmas about the embedded operations, then one theorem
per specification claim (with its witness or counterexample where
applicable). -/

/-! ### Lemmas about `splitlinesKE` -/

/-- Concatenating the kept-ends lines restores the input after the
pending partial line. -/
theorem splitlinesKE_flatten (cs acc : List Char) :
    (splitlinesKE cs acc).flatten = acc.reverse ++ cs := by
  induction cs, acc using splitlinesKE.induct with
  | case1 acc h => simp_all [splitlinesKE, List.isEmpty_iff]
  | case2 acc h => simp_all [splitlinesKE, List.isEmpty_iff]
  | case3 cs acc ih => simp [splitlinesKE, ih]
  | case4 c cs acc hne hlb ih =>
    rw [splitlinesKE]
    · simp [hlb, ih]
    · exact hne
  | case5 c cs acc hne hlb ih =>
    rw [splitlinesKE]
    · simp [hlb, ih]
    · exact hne

/-- Every kept-ends line is non-empty. -/
theorem splitlinesKE_ne_nil (cs acc : List Char) :
    ∀ l ∈ splitlinesKE cs acc, l ≠ [] := by
  induction cs, acc using splitlinesKE.induct with
  | case1 acc h => simp_all [splitlinesKE]
  | case2 acc h =>
    rw [splitlinesKE]
    simp_all [List.isEmpty_iff]
  | case3 cs acc ih =>
    rw [splitlinesKE]
    intro l hl
    rcases List.mem_cons.mp hl with h | h
    · subst h; simp
    · exact ih l h
  | case4 c cs acc hne hlb ih =>
    rw [splitlinesKE]
    · simp only [hlb, if_true]
      intro l hl
      rcases List.mem_cons.mp hl with h | h
      · subst h; simp
      · exact ih l h
    · exact hne
  | case5 c cs acc hne hlb ih =>
    rw [splitlinesKE]
    · simp only [hlb, if_false, Bool.false_eq_true]
      exact ih
    · exact hne

/-! ### Lemmas about the hard-split loop -/

/-- With a positive chunk size and enough fuel, the hard-split pieces
concatenate back to the line. -/
theorem hardSplitFuel_flatten (cs : Nat) (hcs : cs ≠ 0) (fuel : Nat) :
    ∀ line : List Char, line.length ≤ fuel →
      (hardSplitFuel cs fuel line).flatten = line := by
  induction fuel with
  | zero =>
    intro line h
    have hnil : line = [] := List.eq_nil_of_length_eq_zero (Nat.le_zero.mp h)
    subst hnil
    simp [hardSplitFuel]
  | succ n ih =>
    intro line h
    cases line with
    | nil => simp [hardSplitFuel]
    | cons c rest =>
      simp only [hardSplitFuel, List.flatten_cons]
      rw [ih ((c :: rest).drop cs) ?hlen]
      · exact List.take_append_drop cs (c :: rest)
      case hlen =>
        simp only [List.length_drop, List.length_cons]
        simp only [List.length_cons] at h
        omega

/-- Every hard-split piece has length at most `cs`. -/
theorem hardSplitFuel_bound (cs : Nat) (hcs : cs ≠ 0) (fuel : Nat) :
    ∀ line : List Char, ∀ p ∈ hardSplitFuel cs fuel line, p.length ≤ cs ∨ fuel < line.length := by
  induction fuel with
  | zero =>
    intro line p hp
    cases line with
    | nil => simp [hardSplitFuel] at hp
    | cons c rest => right; simp
  | succ n ih =>
    intro line p hp
    cases line with
    | nil => simp [hardSplitFuel] at hp
    | cons c rest =>
      simp only [hardSplitFuel, List.mem_cons] at hp
      rcases hp with h | h
      · subst h
        left
        simp
      · rcases ih ((c :: rest).drop cs) p h with h2 | h2
        · left; exact h2
        · right
          simp only [List.length_drop, List.length_cons] at h2 ⊢
          omega

/-- Every hard-split piece is non-empty when the chunk size is positive. -/
theorem hardSplitFuel_ne_nil (cs : Nat) (hcs : cs ≠ 0) (fuel : Nat) :
    ∀ line : List Char, ∀ p ∈ hardSplitFuel cs fuel line, p ≠ [] := by
  induction fuel with
  | zero =>
    intro line p hp
    cases line with
    | nil => simp [hardSplitFuel] at hp
    | cons c rest =>
      simp only [hardSplitFuel, List.mem_singleton] at hp
      subst hp
      simp
  | succ n ih =>
    intro line p hp
    cases line with
    | nil => simp [hardSplitFuel] at hp
    | cons c rest =>
      simp only [hardSplitFuel, List.mem_cons] at hp
      rcases hp with h | h
      · subst h
        cases cs with
        | zero => exact absurd rfl hcs
        | succ m => simp
      · exact ih _ p h

/-- `hardSplitGo` pieces concatenate back to the line. -/
theorem hardSplitGo_flatten (cs : Nat) (hcs : cs ≠ 0) (line : List Char) :
    (hardSplitGo cs line).flatten = line := by
  rw [hardSplitGo, if_neg hcs]
  exact hardSplitFuel_flatten cs hcs line.length line (Nat.le_refl _)

/-- `hardSplitGo` pieces are bounded by the chunk size. -/
theorem hardSplitGo_bound (cs : Nat) (line : List Char) :
    ∀ p ∈ hardSplitGo cs line, p.length ≤ cs := by
  rw [hardSplitGo]
  split
  · simp
  · rename_i hcs
    intro p hp
    rcases hardSplitFuel_bound cs hcs line.length line p hp with h | h
    · exact h
    · omega

/-- `hardSplitGo` pieces are non-empty. -/
theorem hardSplitGo_ne_nil (cs : Nat) (line : List Char) :
    ∀ p ∈ hardSplitGo cs line, p ≠ [] := by
  rw [hardSplitGo]
  split
  · simp
  · rename_i h
    exact hardSplitFuel_ne_nil cs h line.length line

/-! ### Lemmas about the `split_message` accumulation loop -/

/-- The chunks produced by the loop concatenate to the pending
accumulator followed by the remaining lines. -/
theorem split_message_go_flatten (cs : Nat) (hcs : cs ≠ 0) (lines : List (List Char)) :
    ∀ current currentLen,
      (split_message_go cs lines current currentLen).flatten
        = current.flatten ++ lines.flatten := by
  induction lines with
  | nil =>
    intro current currentLen
    rw [split_message_go]
    by_cases h : current.isEmpty
    · simp [h, List.isEmpty_iff.mp h]
    · simp [h]
  | cons line rest ih =>
    intro current currentLen
    rw [split_message_go]
    split
    · by_cases h : current.isEmpty
      · simp [h, List.isEmpty_iff.mp h, ih, hardSplitGo_flatten cs hcs]
      · simp [h, ih, hardSplitGo_flatten cs hcs]
    · split
      · simp [ih]
      · rw [ih]
        simp

/-- Every chunk produced by the loop has length at most `cs`, provided
the tracked length is accurate and within bound. -/
theorem split_message_go_bound (cs : Nat) (lines : List (List Char)) :
    ∀ current currentLen, current.flatten.length = currentLen → currentLen ≤ cs →
      ∀ c ∈ split_message_go cs lines current currentLen, c.length ≤ cs := by
  induction lines with
  | nil =>
    intro current currentLen hlen hle c hc
    rw [split_message_go] at hc
    split at hc
    · simp at hc
    · simp only [List.mem_singleton] at hc
      subst hc
      omega
  | cons line rest ih =>
    intro current currentLen hlen hle c hc
    rw [split_message_go] at hc
    split at hc
    · rcases List.mem_append.mp hc with hm | hm
      · rcases List.mem_append.mp hm with hm2 | hm2
        · split at hm2
          · simp at hm2
          · simp only [List.mem_singleton] at hm2
            subst hm2
            omega
        · exact hardSplitGo_bound cs line c hm2
      · exact ih [] 0 rfl (Nat.zero_le cs) c hm
    · split at hc
      · rcases List.mem_cons.mp hc with hm | hm
        · subst hm; omega
        · rename_i h1 h2
          refine ih [line] line.length (by simp) ?_ c hm
          omega
      · rename_i h1 h2
        refine ih (current ++ [line]) (currentLen + line.length) ?_ ?_ c hc
        · simp [hlen]
        · omega

/-- Every chunk produced by the loop is non-empty, provided all lines are
non-empty, the tracked length is accurate, and a non-empty accumulator
has non-empty content. -/
theorem split_message_go_ne_nil (cs : Nat) (lines : List (List Char)) :
    ∀ current currentLen, (∀ l ∈ lines, l ≠ []) →
      current.flatten.length = currentLen →
      (current = [] ∨ current.flatten ≠ []) →
      ∀ c ∈ split_message_go cs lines current currentLen, c ≠ [] := by
  induction lines with
  | nil =>
    intro current currentLen hlines hlen hinv c hc
    rw [split_message_go] at hc
    split at hc
    · simp at hc
    · rename_i hne
      simp only [List.mem_singleton] at hc
      subst hc
      rcases hinv with h | h
      · subst h; simp at hne
      · exact h
  | cons line rest ih =>
    intro current currentLen hlines hlen hinv c hc
    have hline : line ≠ [] := hlines line (List.mem_cons_self line rest)
    have hrest : ∀ l ∈ rest, l ≠ [] := fun l hl => hlines l (List.mem_cons_of_mem line hl)
    rw [split_message_go] at hc
    split at hc
    · rcases List.mem_append.mp hc with hm | hm
      · rcases List.mem_append.mp hm with hm2 | hm2
        · split at hm2
          · simp at hm2
          · rename_i hne
            simp only [List.mem_singleton] at hm2
            subst hm2
            rcases hinv with h | h
            · subst h; simp at hne
            · exact h
        · exact hardSplitGo_ne_nil cs line c hm2
      · exact ih [] 0 hrest rfl (Or.inl rfl) c hm
    · split at hc
      · rcases List.mem_cons.mp hc with hm | hm
        · subst hm
          rcases hinv with h | h
          · rename_i h1 h2
            subst h
            simp only [List.flatten_nil, List.length_nil] at hlen
            omega
          · exact h
        · refine ih [line] line.length hrest (by simp) (Or.inr ?_) c hm
          simpa using hline
      · refine ih (current ++ [line]) (currentLen + line.length) hrest (by simp [hlen])
          (Or.inr ?_) c hc
        simp [hline]

/-! ### Claim C1 -/

/-- C1: for every input text and limit L, `split_message` produces chunks
whose concatenation reproduces the input exactly, and no chunk's length
exceeds L (the hard-split pieces of an over-long line are also at most L
long). -/
theorem split_message_chunk_spec (msg : List Char) (L : Nat) (hL : 0 < L) :
    (split_message msg L).flatten = msg ∧
    ∀ c ∈ split_message msg L, c.length ≤ L := by
  constructor
  · rw [split_message, split_message_go_flatten L (Nat.pos_iff_ne_zero.mp hL)]
    simp [splitlinesKE_flatten]
  · rw [split_message]
    exact split_message_go_bound L _ [] 0 rfl (Nat.zero_le L)

/-- Witness for C1 at a concrete message and limit. -/
theorem split_message_chunk_spec_check :
    (split_message ("ab\ncd".toList) 3).flatten = "ab\ncd".toList ∧
    ∀ c ∈ split_message ("ab\ncd".toList) 3, c.length ≤ 3 :=
  split_message_chunk_spec ("ab\ncd".toList) 3 (by decide)

/-! ### Claim C10 -/

/-- C10: `split_message` returns only non-empty chunks, the empty input
yields an empty chunk list, and `send_telegram` therefore attempts zero
posts for an empty message. -/
theorem split_message_nonempty_spec (msg : List Char) (L : Nat) :
    (split_message msg L).all (fun c => !c.isEmpty) = true ∧
    split_message [] L = [] ∧
    ∀ t : Nat → Bool, send_telegram_attempts_main t (send_telegram_chunks []) = [] := by
  refine ⟨?_, rfl, fun t => rfl⟩
  rw [List.all_eq_true]
  intro c hc
  have h := split_message_go_ne_nil L (splitlinesKE msg []) [] 0
    (splitlinesKE_ne_nil msg []) rfl (Or.inl rfl) c hc
  simpa [List.isEmpty_iff] using h

/-! ### Lemmas about the final dedup loop -/

/-- Bridge between `List.contains` and membership. -/
theorem contains_eq_true_iff (l : List String) (a : String) :
    l.contains a = true ↔ a ∈ l :=
  List.elem_iff

/-- Bridge between a false `List.contains` and non-membership. -/
theorem contains_eq_false_iff (l : List String) (a : String) :
    l.contains a = false ↔ ¬a ∈ l := by
  constructor
  · intro h hm
    rw [(contains_eq_true_iff l a).mpr hm] at h
    cases h
  · intro h
    cases hc : l.contains a with
    | false => rfl
    | true => exact absurd ((contains_eq_true_iff l a).mp hc) h

/-- The dedup loop keeps a subsequence of its input. -/
theorem orderedDedupGo_sublist (xs : List String) :
    ∀ seen, List.Sublist (orderedDedupGo xs seen) xs := by
  induction xs with
  | nil => intro seen; simp [orderedDedupGo]
  | cons u rest ih =>
    intro seen
    rw [orderedDedupGo]
    split
    · exact (ih seen).trans (List.sublist_cons_self u rest)
    · exact List.Sublist.cons₂ u (ih (u :: seen))

/-- Nothing already seen is emitted by the dedup loop. -/
theorem orderedDedupGo_not_seen (xs : List String) :
    ∀ seen, ∀ u ∈ orderedDedupGo xs seen, seen.contains u = false := by
  induction xs with
  | nil => intro seen u hu; simp [orderedDedupGo] at hu
  | cons v rest ih =>
    intro seen u hu
    rw [orderedDedupGo] at hu
    split at hu
    · exact ih seen u hu
    · rename_i hv
      rcases List.mem_cons.mp hu with h | h
      · subst h
        exact Bool.eq_false_iff.mpr hv
      · have h2 := ih (v :: seen) u h
        rw [contains_eq_false_iff] at h2
        rw [contains_eq_false_iff]
        exact fun hm => h2 (List.mem_cons_of_mem v hm)

/-- The dedup loop emits no duplicates. -/
theorem orderedDedupGo_nodup (xs : List String) :
    ∀ seen, (orderedDedupGo xs seen).Nodup := by
  induction xs with
  | nil => intro seen; simp [orderedDedupGo]
  | cons v rest ih =>
    intro seen
    rw [orderedDedupGo]
    split
    · exact ih seen
    · refine List.nodup_cons.mpr ⟨?_, ih (v :: seen)⟩
      intro hmem
      have h := orderedDedupGo_not_seen rest (v :: seen) v hmem
      rw [contains_eq_false_iff] at h
      exact h (List.mem_cons_self v seen)

/-- On an input without duplicates none of which was seen, the dedup
loop is the identity. -/
theorem orderedDedupGo_eq_self (xs : List String) :
    ∀ seen, xs.Nodup → (∀ u ∈ xs, seen.contains u = false) →
      orderedDedupGo xs seen = xs := by
  induction xs with
  | nil => intro seen _ _; rfl
  | cons v rest ih =>
    intro seen hnd hns
    rw [orderedDedupGo, if_neg ?_]
    · congr 1
      refine ih (v :: seen) (List.nodup_cons.mp hnd).2 ?_
      intro u hu
      have h1 := hns u (List.mem_cons_of_mem v hu)
      have h2 : u ≠ v := fun e => (List.nodup_cons.mp hnd).1 (e ▸ hu)
      rw [contains_eq_false_iff] at h1 ⊢
      intro hm
      rcases List.mem_cons.mp hm with h | h
      · exact h2 h
      · exact h1 h
    · rw [hns v (List.mem_cons_self v rest)]
      simp

/-! ### Lemmas about the fallback loop -/

/-- Invariants of the fallback loop: starting from a duplicate-free
candidate list of fewer than 4 entries all of which are in `seen`, the
result is duplicate-free, extends the candidates by a subsequence of the
matching resolved URLs of the remaining anchors, and never exceeds 4
entries. -/
theorem fallbackGo_spec (join : String → String → String) (pageUrl pc dt : String)
    (anchors : List Dom) :
    ∀ (cands seen : List String),
      cands.Nodup → (∀ u ∈ cands, seen.contains u = true) → cands.length < 4 →
      (fallbackGo join pageUrl pc dt anchors cands seen).Nodup ∧
      (∃ s, fallbackGo join pageUrl pc dt anchors cands seen = cands ++ s ∧
        List.Sublist s (anchors.filterMap (fun a =>
          if anchorMatches pc dt (getHref a) then some (join pageUrl (getHref a))
          else none))) ∧
      (fallbackGo join pageUrl pc dt anchors cands seen).length ≤ 4 := by
  induction anchors with
  | nil =>
    intro cands seen hnd hsub hlen
    rw [fallbackGo]
    exact ⟨hnd, ⟨[], by simp, List.nil_sublist _⟩, by omega⟩
  | cons a rest ih =>
    intro cands seen hnd hsub hlen
    rw [fallbackGo]
    by_cases hm : anchorMatches pc dt (getHref a) = true
    · have hfm : List.filterMap (fun x =>
          if anchorMatches pc dt (getHref x) = true then some (join pageUrl (getHref x))
          else none) (a :: rest)
          = join pageUrl (getHref a) :: List.filterMap (fun x =>
              if anchorMatches pc dt (getHref x) = true then some (join pageUrl (getHref x))
              else none) rest := by
        simp [List.filterMap_cons, hm]
      rw [if_pos hm]
      by_cases hs : seen.contains (join pageUrl (getHref a)) = true
      · rw [if_pos hs, if_neg (by omega)]
        obtain ⟨h1, ⟨s, h2, h3⟩, h4⟩ := ih cands seen hnd hsub hlen
        refine ⟨h1, ⟨s, h2, ?_⟩, h4⟩
        rw [hfm]
        exact h3.cons _
      · rw [if_neg hs]
        have hfu : ¬join pageUrl (getHref a) ∈ cands := fun hmem => by
          rw [hsub _ hmem] at hs; exact hs rfl
        have hnd2 : (cands ++ [join pageUrl (getHref a)]).Nodup := by
          simp [List.nodup_append, hnd, hfu]
        by_cases hstop : 4 ≤ (cands ++ [join pageUrl (getHref a)]).length
        · rw [if_pos hstop]
          refine ⟨hnd2, ⟨[join pageUrl (getHref a)], rfl, ?_⟩, ?_⟩
          · rw [hfm]
            exact (List.nil_sublist _).cons₂ _
          · simp only [List.length_append, List.length_singleton]
            omega
        · rw [if_neg hstop]
          have hsub2 : ∀ u ∈ cands ++ [join pageUrl (getHref a)],
              (join pageUrl (getHref a) :: seen).contains u = true := by
            intro u hu
            rw [contains_eq_true_iff]
            rcases List.mem_append.mp hu with h | h
            · exact List.mem_cons_of_mem _ ((contains_eq_true_iff _ _).mp (hsub u h))
            · rw [List.mem_singleton.mp h]
              exact List.mem_cons_self _ _
          have hlen2 : (cands ++ [join pageUrl (getHref a)]).length < 4 := by
            omega
          obtain ⟨h1, ⟨s, h2, h3⟩, h4⟩ := ih _ _ hnd2 hsub2 hlen2
          refine ⟨h1, ⟨join pageUrl (getHref a) :: s, ?_, ?_⟩, h4⟩
          · rw [h2, List.append_assoc]
            rfl
          · rw [hfm]
            exact h3.cons₂ _
    · have hfm : List.filterMap (fun x =>
          if anchorMatches pc dt (getHref x) = true then some (join pageUrl (getHref x))
          else none) (a :: rest)
          = List.filterMap (fun x =>
              if anchorMatches pc dt (getHref x) = true then some (join pageUrl (getHref x))
              else none) rest := by
        simp [List.filterMap_cons, hm]
      rw [if_neg hm, if_neg (by omega)]
      obtain ⟨h1, ⟨s, h2, h3⟩, h4⟩ := ih cands seen hnd hsub hlen
      refine ⟨h1, ⟨s, h2, ?_⟩, h4⟩
      rw [hfm]
      exact h3

/-- The fallback candidate list over a document: duplicate-free, at most
4 entries, and a subsequence of the matching URLs in document order. -/
theorem fallbackCandidates_spec (join : String → String → String) (root : Dom)
    (pageUrl pc dt : String) :
    (fallbackCandidates join root pageUrl pc dt).Nodup ∧
    List.Sublist (fallbackCandidates join root pageUrl pc dt)
      (allMatching join root pageUrl pc dt) ∧
    (fallbackCandidates join root pageUrl pc dt).length ≤ 4 := by
  obtain ⟨h1, ⟨s, h2, h3⟩, h4⟩ :=
    fallbackGo_spec join pageUrl pc dt (anchorList root) [] [] List.nodup_nil
      (by intro u hu; cases hu) (by simp)
  rw [fallbackCandidates]
  refine ⟨h1, ?_, h4⟩
  rw [allMatching, h2]
  simpa using h3

/-- Length of a duplicate-free list is bounded by any list containing
all its members. -/
theorem nodup_subset_length_le (res xs : List String) (hnd : res.Nodup)
    (hsub : ∀ u ∈ res, u ∈ xs) : res.length ≤ xs.length := by
  have h1 : res.toFinset.card = res.length := List.toFinset_card_of_nodup hnd
  have h2 : res.toFinset ⊆ xs.toFinset := by
    intro u hu
    rw [List.mem_toFinset] at hu ⊢
    exact hsub u hu
  have h3 := Finset.card_le_card h2
  have h4 := xs.toFinset_card_le
  omega

/-! ### Claim C3 -/

/-- C3 (amended): both extractors return a URL list with no repeated
URL; the build_urls_from_naver version preserves discovery order of the
winning path (its result is a subsequence of that path's candidate
list), while the main.py version returns the same URLs in an order
chosen by `list(set(...))`, which is not tied to discovery order. -/
theorem extract_links_nodup_spec (join : String → String → String) (root : Dom)
    (pageUrl pc dt : String) :
    (extract_a1_links_bu join root pageUrl pc dt).Nodup ∧
    List.Sublist (extract_a1_links_bu join root pageUrl pc dt)
      (a1_candidates_bu join root pageUrl pc dt) ∧
    ∀ res : List String,
      extract_a1_links_main_spec join root pageUrl pc dt res → res.Nodup := by
  refine ⟨orderedDedupGo_nodup _ [], orderedDedupGo_sublist _ [], ?_⟩
  intro res h
  exact h.1

/-- Witness for C3: a concrete admissible main.py result is
duplicate-free. -/
theorem extract_links_nodup_spec_check :
    ([hrefNum 0, hrefNum 1] : List String).Nodup :=
  (extract_links_nodup_spec idJoin docTwo "pu" "020" "20250101").2.2
    [hrefNum 0, hrefNum 1] (by decide)

/-- C3 counterexample: on a two-anchor page the discovery order is
`[hrefNum 0, hrefNum 1]`, yet the reversed list is also an admissible
return of main.py's `list(set(candidates))`, so the main.py extractor
does not preserve discovery order. -/
theorem extract_links_main_order_unspecified :
    a1_candidates_main idJoin docTwo "pu" "020" "20250101" = [hrefNum 0, hrefNum 1] ∧
    extract_a1_links_main_spec idJoin docTwo "pu" "020" "20250101"
      [hrefNum 1, hrefNum 0] ∧
    ([hrefNum 1, hrefNum 0] : List String) ≠ [hrefNum 0, hrefNum 1] :=
  ⟨by decide, by decide, by decide⟩

/-! ### Claim C4 -/

/-- C4 (amended): when the keyword scan marks no link, both extractors
take the fallback path: the build_urls_from_naver version returns
exactly the fallback list - at most 4 distinct matching links in
document order - and the main.py version returns those links as a set of
at most 4 in unspecified order; when the keyword scan marks a link the
fallback path is not taken.  The final conjunct is the 5-href scenario
for the order-preserving version. -/
theorem extract_links_fallback_spec (join : String → String → String) (root : Dom)
    (pageUrl pc dt : String) :
    (keywordCandidates buildKeys join root pageUrl pc dt = [] →
      extract_a1_links_bu join root pageUrl pc dt
          = fallbackCandidates join root pageUrl pc dt ∧
        (extract_a1_links_bu join root pageUrl pc dt).length ≤ 4 ∧
        List.Sublist (extract_a1_links_bu join root pageUrl pc dt)
          (allMatching join root pageUrl pc dt)) ∧
    (keywordCandidates buildKeys join root pageUrl pc dt ≠ [] →
      a1_candidates_bu join root pageUrl pc dt
        = keywordCandidates buildKeys join root pageUrl pc dt) ∧
    (keywordCandidates mainKeys join root pageUrl pc dt = [] →
      ∀ res, extract_a1_links_main_spec join root pageUrl pc dt res →
        res.length ≤ 4) ∧
    extract_a1_links_bu idJoin docFive "pu" "020" "20250101"
      = [hrefNum 0, hrefNum 1, hrefNum 2, hrefNum 3] := by
  obtain ⟨hnd, hsubl, hlen⟩ := fallbackCandidates_spec join root pageUrl pc dt
  refine ⟨?_, ?_, ?_, by decide⟩
  · intro hkw
    have hcand : a1_candidates_bu join root pageUrl pc dt
        = fallbackCandidates join root pageUrl pc dt := by
      simp [a1_candidates_bu, hkw]
    have h1 : extract_a1_links_bu join root pageUrl pc dt
        = fallbackCandidates join root pageUrl pc dt := by
      rw [extract_a1_links_bu, hcand, orderedDedup]
      exact orderedDedupGo_eq_self _ [] hnd (fun u _ => rfl)
    rw [h1]
    exact ⟨rfl, hlen, hsubl⟩
  · intro hkw
    simp [a1_candidates_bu, List.isEmpty_iff, hkw]
  · intro hkw res hres
    have hcand : a1_candidates_main join root pageUrl pc dt
        = fallbackCandidates join root pageUrl pc dt := by
      simp [a1_candidates_main, hkw]
    have hsub : ∀ u ∈ res, u ∈ fallbackCandidates join root pageUrl pc dt := by
      intro u hu
      have := hres.2.1 u hu
      rwa [hcand] at this
    exact (nodup_subset_length_le res _ hres.1 hsub).trans hlen

/-- Witness for C4 at the concrete 5-anchor keywordless document. -/
theorem extract_links_fallback_spec_check :
    extract_a1_links_bu idJoin docFive "pu" "020" "20250101"
        = fallbackCandidates idJoin docFive "pu" "020" "20250101" ∧
      (extract_a1_links_bu idJoin docFive "pu" "020" "20250101").length ≤ 4 ∧
      List.Sublist (extract_a1_links_bu idJoin docFive "pu" "020" "20250101")
        (allMatching idJoin docFive "pu" "020" "20250101") :=
  (extract_links_fallback_spec idJoin docFive "pu" "020" "20250101").1 (by decide)

/-- C4 counterexample: on the 5-href keywordless page the first four
distinct matching links in document order are `hrefNum 0..3`, yet
main.py's `list(set(...))` may return them reversed, so the main.py
extractor does not return them *in document order*. -/
theorem extract_links_main_fallback_order_cex :
    keywordCandidates mainKeys idJoin docFive "pu" "020" "20250101" = [] ∧
    a1_candidates_main idJoin docFive "pu" "020" "20250101"
      = [hrefNum 0, hrefNum 1, hrefNum 2, hrefNum 3] ∧
    extract_a1_links_main_spec idJoin docFive "pu" "020" "20250101"
      [hrefNum 3, hrefNum 2, hrefNum 1, hrefNum 0] ∧
    ([hrefNum 3, hrefNum 2, hrefNum 1, hrefNum 0] : List String)
      ≠ [hrefNum 0, hrefNum 1, hrefNum 2, hrefNum 3] :=
  ⟨by decide, by decide, by decide, by decide⟩

/-! ### Claim C2 -/

/-- C2 (amended): for every network oracle and batch, the fetch stage
returns a list of the same length whose i-th entry has the i-th input's
source and url, and an item whose fetch raises is returned unchanged -
with no content field at all - rather than making the batch raise; the
"no content" sentinel is only produced on a successful fetch with no
extractable body. -/
theorem fetch_contents_parallel_spec (net : String → FetchOutcome)
    (items : List NewsItem) :
    (fetch_contents_parallel net items).length = items.length ∧
    (∀ i : Nat, ((fetch_contents_parallel net items)[i]?).map NewsItem.source
        = (items[i]?).map NewsItem.source) ∧
    (∀ i : Nat, ((fetch_contents_parallel net items)[i]?).map NewsItem.url
        = (items[i]?).map NewsItem.url) ∧
    ∀ i : Nat, ∀ it : NewsItem, items[i]? = some it →
      net it.url = FetchOutcome.error →
      (fetch_contents_parallel net items)[i]? = some it := by
  have hsrc : ∀ it : NewsItem,
      (fetch_single_article_content net it).source = it.source := by
    intro it
    rw [fetch_single_article_content]
    cases net it.url <;> rfl
  have hurl : ∀ it : NewsItem,
      (fetch_single_article_content net it).url = it.url := by
    intro it
    rw [fetch_single_article_content]
    cases net it.url <;> rfl
  refine ⟨List.length_map _ _, ?_, ?_, ?_⟩
  · intro i
    rw [fetch_contents_parallel, List.getElem?_map]
    cases h : items[i]? with
    | none => rfl
    | some it => simp [hsrc]
  · intro i
    rw [fetch_contents_parallel, List.getElem?_map]
    cases h : items[i]? with
    | none => rfl
    | some it => simp [hurl]
  · intro i it hit herr
    rw [fetch_contents_parallel, List.getElem?_map, hit]
    simp [fetch_single_article_content, herr]

/-- Witness for C2: a concrete all-error batch passes its single item
through unchanged. -/
theorem fetch_contents_parallel_spec_check :
    (fetch_contents_parallel (fun _ => FetchOutcome.error)
        [{ source := "동아일보", url := "http://u", content := none }])[0]?
      = some { source := "동아일보", url := "http://u", content := none } :=
  (fetch_contents_parallel_spec (fun _ => FetchOutcome.error) _).2.2.2 0 _ rfl rfl

/-- C2 counterexample: an item whose fetch raises keeps its missing
content field; it does not carry the "no content" sentinel the claim
promises. -/
theorem fetch_error_item_lacks_sentinel :
    (fetch_contents_parallel (fun _ => FetchOutcome.error)
        [{ source := "조선일보", url := "http://v", content := none }]).map
        NewsItem.content
      = [none] ∧ (none : Option String) ≠ some "본문 없음" :=
  ⟨by decide, by decide⟩

/-! ### Claim C5 -/

/-- C5 (amended): when the classification collaborator's output cannot
be parsed, `classify_topics` returns the empty map without raising,
`run_pipeline` degrades to the flat fallback list with exactly one
enumeration line per summarized item carrying that item's own index, and
the final report is still non-empty; `main.py` instead renders zero
topic groups in that situation (see the counterexample). -/
theorem classification_failure_flat_fallback (items : List SummaryItem)
    (mode_label analysis : String) :
    classify_topics none = [] ∧
    link_lines (classify_topics none) items
      = "[기사 링크 모음]" :: items.map flat_link_line ∧
    (items.map flat_link_line).length = items.length ∧
    0 < (final_report mode_label (classify_topics none) items analysis).length := by
  refine ⟨rfl, rfl, List.length_map _ _, ?_⟩
  have h5 : ("[모드] " : String).length = 5 := rfl
  rw [final_report]
  simp only [String.length_append]
  omega

/-- C5 counterexample: in main.py an unparseable classification yields
zero rendered topic groups even with one fetched item, not one
single-member group per fetched item. -/
theorem main_classification_failure_no_groups :
    sort_topics_main (analyze_with_gemini none).topics = [] ∧
    ([{ source := "동아일보", url := "u", content := some "본문" }] :
        List NewsItem).length = 1 ∧
    (sort_topics_main (analyze_with_gemini none).topics).length
      ≠ ([{ source := "동아일보", url := "u", content := some "본문" }] :
        List NewsItem).length :=
  ⟨rfl, rfl, by decide⟩

/-! ### Claim C6 -/

/-- C6 (amended): both senders attempt chunks strictly in order - the
attempted indices are consecutive from the start - and
frontpage_analysis's sender stops at the first failed chunk, so every
recorded attempt except possibly the last succeeded; main.py's sender
keeps attempting after a failure (see the counterexample). -/
theorem delivery_sequential_spec {α : Type} (t : Nat → Bool) (chunks : List α)
    (i : Nat) :
    (send_telegram_attempts_main t chunks).map Prod.fst
      = List.range chunks.length ∧
    (send_attempts_fp t chunks i).map Prod.fst
      = List.range' i (send_attempts_fp t chunks i).length ∧
    ((send_attempts_fp t chunks i).dropLast).all (fun p => p.2) = true := by
  refine ⟨?_, ?_, ?_⟩
  · rw [send_telegram_attempts_main, List.map_map]
    exact List.map_id' _
  · induction chunks generalizing i with
    | nil => rfl
    | cons c rest ih =>
      rw [send_attempts_fp]
      by_cases h : t i = true
      · rw [if_pos h]
        simp only [List.map_cons, List.length_cons, List.range'_succ]
        rw [ih (i + 1)]
      · rw [if_neg h]
        rfl
  · induction chunks generalizing i with
    | nil => rfl
    | cons c rest ih =>
      rw [send_attempts_fp]
      by_cases h : t i = true
      · rw [if_pos h]
        cases e : send_attempts_fp t rest (i + 1) with
        | nil => rfl
        | cons p ps =>
          have h2 := ih (i + 1)
          rw [e] at h2
          rw [List.dropLast_cons₂, List.all_cons, h2]
          simp [h]
      · rw [if_neg h]
        rfl

/-- C6 counterexample: with the transport failing on chunk 0, main.py's
sender still attempts chunk 1 after recording chunk 0's failure. -/
theorem main_delivery_continues_after_failure :
    send_telegram_attempts_main (fun i => i != 0) (["a", "b"] : List String)
      = [(0, false), (1, true)] ∧
    (send_telegram_attempts_main (fun i => i != 0)
      (["a", "b"] : List String)).length = 2 :=
  ⟨by decide, by decide⟩

/-! ### Claim C7 -/

/-- C7: the `idx < len(contents)` guard in main.py lacks a lower bound:
with one fetched item, id `-2` makes `contents[idx]` raise `IndexError`
(modelled as `none`), and id `-1` renders the *last* item instead of
being dropped; only ids at or above `len(contents)` are dropped. -/
theorem negative_index_not_dropped :
    build_link_tags [{ source := "동아일보", url := "u0", content := some "a" }] [-2]
      = none ∧
    build_link_tags [{ source := "동아일보", url := "u0", content := some "a" },
        { source := "한겨레", url := "u1", content := some "b" }] [-1]
      = some [("u1", "한겨레")] ∧
    build_link_tags [{ source := "동아일보", url := "u0", content := some "a" },
        { source := "한겨레", url := "u1", content := some "b" }] [5]
      = some [] :=
  ⟨by decide, by decide, by decide⟩

/-! ### Claim C9 -/

/-- C9 (amended): frontpage_analysis raises SystemExit - a non-zero
outcome with a clear message - when zero URLs are loaded or when zero
items are successfully summarized, and only then; main.py instead prints
a message and returns normally on zero links (see the counterexample). -/
theorem fatal_conditions_spec (fetchO : LoadedItem → Option String)
    (sumO : LoadedItem → String → Option String) (items : List LoadedItem) :
    (items = [] → run_pipeline_exit fetchO sumO items
      = RunExit.sysExit "URL이 한 개도 없습니다. urls.txt를 확인하세요.") ∧
    (items ≠ [] → build_summary_items fetchO sumO items = [] →
      run_pipeline_exit fetchO sumO items
        = RunExit.sysExit "요약이 한 개도 생성되지 않았습니다.") ∧
    ((run_pipeline_exit fetchO sumO items).isFatal = true →
      items = [] ∨ build_summary_items fetchO sumO items = []) := by
  refine ⟨?_, ?_, ?_⟩
  · intro h
    subst h
    rfl
  · intro h1 h2
    rw [run_pipeline_exit, if_neg ?_, if_pos ?_]
    · rw [List.isEmpty_iff]
      exact h2
    · rw [List.isEmpty_iff]
      exact h1
  · intro h
    rw [run_pipeline_exit] at h
    by_cases h1 : items.isEmpty = true
    · exact Or.inl (List.isEmpty_iff.mp h1)
    · rw [if_neg h1] at h
      by_cases h2 : (build_summary_items fetchO sumO items).isEmpty = true
      · exact Or.inr (List.isEmpty_iff.mp h2)
      · rw [if_neg h2] at h
        cases h

/-- Witness for C9: a concrete run whose every summarization fails ends
in the zero-summaries SystemExit. -/
theorem fatal_conditions_spec_check :
    run_pipeline_exit (fun _ => none) (fun _ _ => none)
        [{ index := 1, source := "s", url := "u" }]
      = RunExit.sysExit "요약이 한 개도 생성되지 않았습니다." :=
  (fatal_conditions_spec (fun _ => none) (fun _ _ => none) _).2.1 (by decide) rfl

/-- C9 counterexample: on zero discovered links main.py prints a message
and returns normally; the outcome is not a raise/exit and not
non-zero-equivalent. -/
theorem main_zero_links_soft_return :
    main_zero_links_exit [] = RunExit.earlyReturn "수집된 기사가 없습니다." ∧
    (main_zero_links_exit []).isFatal = false :=
  ⟨rfl, rfl⟩

/-! ### Claim C8 -/

/-- Stability of `insertionSort` under a predicate whose holders are
mutually related: the sorted list keeps them in their original order. -/
theorem insertionSort_filter_stable {α : Type} (r : α → α → Prop) [DecidableRel r]
    (p : α → Bool) (hp : ∀ a b, p a = true → p b = true → r a b) (l : List α) :
    (List.insertionSort r l).filter p = l.filter p := by
  have hpair : (l.filter p).Pairwise r := by
    refine List.pairwise_of_forall_mem_list ?_
    intro a ha b hb
    exact hp a b (List.of_mem_filter ha) (List.of_mem_filter hb)
  have hsub : List.Sublist (l.filter p) (List.insertionSort r l) :=
    List.sublist_insertionSort hpair (List.filter_sublist l)
  have hsub2 : List.Sublist ((l.filter p).filter p)
      ((List.insertionSort r l).filter p) := hsub.filter p
  have hff : (l.filter p).filter p = l.filter p := by
    rw [List.filter_filter]
    congr 1
    funext a
    rw [Bool.and_self]
  rw [hff] at hsub2
  have hlen : ((List.insertionSort r l).filter p).length = (l.filter p).length :=
    ((List.perm_insertionSort r l).filter p).length_eq
  exact (hsub2.eq_of_length hlen.symm).symm

/-- C8 (amended): main.py sorts the topics by descending member count
with a stable sort - equal-count topics keep the collaborator's original
order - and the claim's scenario holds in main.py; frontpage_analysis
instead orders topic sections alphabetically by label (see the
counterexample). -/
theorem main_topics_sort_spec (ts : List Topic) :
    (sort_topics_main ts).Perm ts ∧
    List.Sorted topicGE (sort_topics_main ts) ∧
    (∀ n : Nat, (sort_topics_main ts).filter (fun t => topicSize t == n)
      = ts.filter (fun t => topicSize t == n)) ∧
    sort_topics_main [scenTopicA, scenTopicB] = [scenTopicA, scenTopicB] ∧
    sort_topics_main [scenTopicB, scenTopicA] = [scenTopicA, scenTopicB] := by
  refine ⟨List.perm_insertionSort topicGE ts,
    List.sorted_insertionSort topicGE ts, ?_, by decide, by decide⟩
  intro n
  refine insertionSort_filter_stable topicGE (fun t => topicSize t == n) ?_ ts
  intro a b ha hb
  simp only [beq_iff_eq] at ha hb
  show topicSize b ≤ topicSize a
  omega

/-- C8 counterexample: frontpage_analysis renders topic sections in
alphabetical label order; with topic "A. T" holding 1 member and topic
"B. T" holding 2, the rendered report presents "A. T" - the smaller
group - first, so the groups are not sorted by descending member
count. -/
theorem frontpage_topic_order_not_by_size :
    link_lines [("A. T", [1]), ("B. T", [0, 2])] fixtureItems3
      = ["[주제별 기사 링크]", "A. T", "- s1: u1", "",
         "B. T", "- s0: u0", "- s2: u2", ""] ∧
    (tmGet [("A. T", [1]), ("B. T", [0, 2])] "A. T").length = 1 ∧
    (tmGet [("A. T", [1]), ("B. T", [0, 2])] "B. T").length = 2 ∧
    ¬(2 ≤ 1) :=
  ⟨by decide, by decide, by decide, by decide⟩

end News1
